import Mathlib

set_option maxHeartbeats 1600000

/-!
Verification of the DTLN weight-blob exporter
(`tools/dtln/export_dtln_weights.py`) and of the blob format it produces.

Bytes are modelled as `List Nat` (each entry one byte value).  The fields
written with Python `struct.pack` are modelled by `packU8`/`packU16`/`packU32`,
which keep the low bits of the value exactly as the packed bytes do
(`struct.pack` raises for out-of-range values, so every run that completes in
Python agrees with these functions on all packed fields).

An onnx float32 initializer tensor is modelled as its list of dims together
with the list of 32-bit patterns of its float32 elements; `numpy.tobytes` on a
little-endian float32 array is then the concatenation of the 4-byte
little-endian encodings of those patterns.
-/

namespace DTLN

def packU8 (n : Nat) : List Nat := [n % 256]

def packU16 (n : Nat) : List Nat := [n % 256, n / 256 % 256]

def packU32 (n : Nat) : List Nat :=
  [n % 256, n / 256 % 256, n / 65536 % 256, n / 16777216 % 256]

/-- UTF-8 encoding of one character, as produced by Python `str.encode("utf-8")`. -/
def utf8Char (c : Char) : List Nat :=
  if c.toNat < 128 then [c.toNat]
  else if c.toNat < 2048 then [192 + c.toNat / 64, 128 + c.toNat % 64]
  else if c.toNat < 65536 then
    [224 + c.toNat / 4096, 128 + c.toNat / 64 % 64, 128 + c.toNat % 64]
  else
    [240 + c.toNat / 262144, 128 + c.toNat / 4096 % 64,
     128 + c.toNat / 64 % 64, 128 + c.toNat % 64]

/-- UTF-8 bytes of a string (Python `name.encode("utf-8")`). -/
def strBytes (s : String) : List Nat := (s.data.map utf8Char).flatten

-- Header constants for the binary format (source lines 22-25).
def MAGIC : List Nat := strBytes "DTLN"

def VERSION : Nat := 1

def ENDIANNESS : Nat := 0

def DTYPE_F32 : Nat := 0

/-- A catalog entry: `(name, expected_shape, stage)` (source `TensorDescriptor`). -/
abbrev TensorDescriptor := String × List Nat × String

/-- The fixed source catalog `TENSOR_ORDER`. -/
def TENSOR_ORDER : List TensorDescriptor := [
  ("lstm_4_W", [1, 512, 257], "stage1"),
  ("lstm_4_R", [1, 512, 128], "stage1"),
  ("lstm_4_B", [1, 1024], "stage1"),
  ("lstm_5_W", [1, 512, 128], "stage1"),
  ("lstm_5_R", [1, 512, 128], "stage1"),
  ("lstm_5_B", [1, 1024], "stage1"),
  ("dense_2/kernel:0", [128, 257], "stage1"),
  ("dense_2/bias:0", [257], "stage1"),
  ("conv1d_2/kernel:0", [256, 512, 1], "stage2"),
  ("conv1d_3/kernel:0", [512, 256, 1], "stage2"),
  ("model_2/instant_layer_normalization_1/mul/ReadVariableOp/resource:0", [256], "stage2"),
  ("model_2/instant_layer_normalization_1/add_1/ReadVariableOp/resource:0", [256], "stage2"),
  ("model_2/lstm_6/MatMul/ReadVariableOp/resource:0", [256, 512], "stage2"),
  ("model_2/lstm_6/MatMul_1/ReadVariableOp/resource:0", [128, 512], "stage2"),
  ("model_2/lstm_6/BiasAdd/ReadVariableOp/resource:0", [512], "stage2"),
  ("model_2/lstm_7/MatMul/ReadVariableOp/resource:0", [128, 512], "stage2"),
  ("model_2/lstm_7/MatMul_1/ReadVariableOp/resource:0", [128, 512], "stage2"),
  ("model_2/lstm_7/BiasAdd/ReadVariableOp/resource:0", [512], "stage2"),
  ("model_2/dense_3/Tensordot/Reshape_1:0", [128, 256], "stage2"),
  ("model_2/dense_3/BiasAdd/ReadVariableOp/resource:0", [256], "stage2")]

/-- An onnx float32 tensor (`onnx.TensorProto` after `numpy_helper.to_array`):
its `dims` and the 32-bit patterns of its float32 elements. -/
structure TensorProto where
  dims : List Nat
  elems : List Nat
deriving DecidableEq

/-- `float32_bytes_from_initializer`: raw little-endian float32 bytes of the
tensor, i.e. `array.astype("float32").tobytes(order="C")`. -/
def float32_bytes (t : TensorProto) : List Nat := (t.elems.map packU32).flatten

/-- `infer_shape`: the tuple of dims of the initializer tensor. -/
def infer_shape (t : TensorProto) : List Nat := t.dims

/-- The extraction adapter: the `models` dict of `main`, mapping a stage and a
tensor name to the tensor found there, `none` when `name not in pool`. -/
abbrev Models := String → String → Option TensorProto

/-- The exceptions `main` raises during validation
(`RuntimeError("Missing tensor ...")` and `RuntimeError("Shape mismatch ...")`). -/
inductive ExportError where
  | missingTensor (name stage : String)
  | shapeMismatch (name : String) (expected actual : List Nat)
deriving DecidableEq

/-- One element of the `entries` list built by `main`
(`{"name": ..., "shape": ..., "len": ..., "bytes": ..., "stage": ...}`). -/
structure Entry where
  name : String
  shape : List Nat
  len : Nat
  bytes : List Nat
  stage : String
deriving DecidableEq

/-- The entry appended for one catalog descriptor once its checks passed:
`shape` is the actual shape, `len` is `len(data) // 4`, `bytes` is `data`. -/
def mkEntry (name stage : String) (t : TensorProto) : Entry :=
  ⟨name, infer_shape t, (float32_bytes t).length / 4, float32_bytes t, stage⟩

/-- The validation loop of `main` (source lines 77-98): walk the catalog in
order; fail with `missingTensor` when the stage's pool lacks the name, with
`shapeMismatch` when the actual shape differs from the expected one; otherwise
append the entry and continue. -/
def buildEntries : List TensorDescriptor → Models → Except ExportError (List Entry)
  | [], _ => .ok []
  | (name, expected, stage) :: rest, m =>
    match m stage name with
    | none => .error (.missingTensor name stage)
    | some t =>
      if infer_shape t ≠ expected then
        .error (.shapeMismatch name expected (infer_shape t))
      else
        match buildEntries rest m with
        | .error e => .error e
        | .ok es => .ok (mkEntry name stage t :: es)

/-- The bytes of one descriptor record (one iteration of the descriptor loop,
source lines 106-115): name length, name bytes, dim count, dims, the running
payload offset, the element count. -/
def descRecord (e : Entry) (offset : Nat) : List Nat :=
  packU16 (strBytes e.name).length ++ strBytes e.name ++
    packU8 e.shape.length ++ (e.shape.map packU32).flatten ++
    packU32 offset ++ packU32 e.len

/-- The whole descriptor table: records in entry order, the offset advancing by
`len(entry["bytes"])` after each record. -/
def descTable : List Entry → Nat → List Nat
  | [], _ => []
  | e :: rest, offset => descRecord e offset ++ descTable rest (offset + e.bytes.length)

/-- The payload section (source lines 118-119): each entry's bytes, in order. -/
def payloadBytes (es : List Entry) : List Nat := (es.map (fun e => e.bytes)).flatten

/-- The complete blob `main` writes: magic, version, endianness, dtype,
tensor count, descriptor table, payload section. -/
def blobBytes (es : List Entry) : List Nat :=
  MAGIC ++ packU32 VERSION ++ packU8 ENDIANNESS ++ packU8 DTYPE_F32 ++
    packU32 es.length ++ descTable es 0 ++ payloadBytes es

/-- One element of the manifest's `tensors` array.  `checksum` holds
`hashlib.sha256(entry["bytes"]).hexdigest()`; the digest function itself is an
external library call and enters the model as the parameter `H` below. -/
structure ManifestTensor where
  name : String
  shape : List Nat
  stage : String
  len : Nat
  checksum : String
deriving DecidableEq

/-- The manifest object `main` serializes to JSON (source lines 121-135). -/
structure Manifest where
  version : Nat
  dtype : String
  tensor_count : Nat
  tensors : List ManifestTensor
deriving DecidableEq

/-- The manifest built from the entries; `H` models
`fun bs => hashlib.sha256(bs).hexdigest()`. -/
def manifestOf (H : List Nat → String) (es : List Entry) : Manifest :=
  ⟨VERSION, "f32", es.length,
    es.map (fun e => ⟨e.name, e.shape, e.stage, e.len, H e.bytes⟩)⟩

/-- The whole export (`main`, source lines 69-138): validation of every catalog
entry runs to completion first; only afterwards are the blob file and the
manifest file produced.  On any validation error nothing is written. -/
def mainExport (H : List Nat → String) (c : List TensorDescriptor) (m : Models) :
    Except ExportError (List Nat × Manifest) :=
  match buildEntries c m with
  | .error e => .error e
  | .ok es => .ok (blobBytes es, manifestOf H es)

/-- A placeholder entry used as the default of `List.getD`. -/
def noEntry : Entry := ⟨"", [], 0, [], ""⟩

/-- A placeholder catalog descriptor used as the default of `List.getD`. -/
def noDescr : TensorDescriptor := ("", [], "")

/-- The total payload byte length contributed by the first `i` entries; this is
the value of the writer's running `offset` variable when it reaches entry `i`. -/
def bytesBefore : List Entry → Nat → Nat
  | _, 0 => 0
  | [], _ + 1 => 0
  | e :: rest, i + 1 => e.bytes.length + bytesBefore rest i

/-- The successive values of the writer's `offset` variable, i.e. the offsets
stored in the descriptor records, in record order. -/
def offsetsOf : List Entry → Nat → List Nat
  | [], _ => []
  | e :: rest, offset => offset :: offsetsOf rest (offset + e.bytes.length)

/-!
The Blob Reader / Validator.  The repository ships only the producer; the
consumer side below is modelled from the spec (section 4.5): `open` checks
magic, version, endianness and dtype, parses the descriptor table fully, and
`tensor` looks a name up in the parsed table and returns the slice
`[offset, offset + length*4)` of the payload section.
-/

/-- Modelled from the spec: read one byte from the stream. -/
def readU8 : List Nat → Option (Nat × List Nat)
  | b :: rest => some (b, rest)
  | [] => none

/-- Modelled from the spec: read a little-endian unsigned 16-bit value. -/
def readU16 : List Nat → Option (Nat × List Nat)
  | b0 :: b1 :: rest => some (b0 + 256 * b1, rest)
  | _ => none

/-- Modelled from the spec: read a little-endian unsigned 32-bit value. -/
def readU32 : List Nat → Option (Nat × List Nat)
  | b0 :: b1 :: b2 :: b3 :: rest =>
    some (b0 + 256 * b1 + 65536 * b2 + 16777216 * b3, rest)
  | _ => none

/-- Modelled from the spec: read exactly `n` bytes from the stream. -/
def readChunk (n : Nat) (bs : List Nat) : Option (List Nat × List Nat) :=
  if n ≤ bs.length then some (bs.take n, bs.drop n) else none

/-- Modelled from the spec: read `n` little-endian unsigned 32-bit dims. -/
def readDims : Nat → List Nat → Option (List Nat × List Nat)
  | 0, bs => some ([], bs)
  | n + 1, bs =>
    match readU32 bs with
    | none => none
    | some (d, bs1) =>
      match readDims n bs1 with
      | none => none
      | some (ds, bs2) => some (d :: ds, bs2)

/-- Modelled from the spec: a descriptor record as reconstructed by the reader. -/
structure ParsedDesc where
  nameBytes : List Nat
  dims : List Nat
  offset : Nat
  len : Nat
deriving DecidableEq

/-- Modelled from the spec: parse one descriptor record. -/
def readDesc (bs : List Nat) : Option (ParsedDesc × List Nat) :=
  match readU16 bs with
  | none => none
  | some (nameLen, bs1) =>
    match readChunk nameLen bs1 with
    | none => none
    | some (nb, bs2) =>
      match readU8 bs2 with
      | none => none
      | some (dimCount, bs3) =>
        match readDims dimCount bs3 with
        | none => none
        | some (ds, bs4) =>
          match readU32 bs4 with
          | none => none
          | some (off, bs5) =>
            match readU32 bs5 with
            | none => none
            | some (len, bs6) => some (⟨nb, ds, off, len⟩, bs6)

/-- Modelled from the spec: parse `n` descriptor records. -/
def readDescs : Nat → List Nat → Option (List ParsedDesc × List Nat)
  | 0, bs => some ([], bs)
  | n + 1, bs =>
    match readDesc bs with
    | none => none
    | some (d, bs1) =>
      match readDescs n bs1 with
      | none => none
      | some (ds, bs2) => some (d :: ds, bs2)

/-- Modelled from the spec: the reader's handle once `Ready` — the parsed
descriptor table plus the payload section. -/
structure Handle where
  version : Nat
  descs : List ParsedDesc
  payload : List Nat
deriving DecidableEq

/-- Modelled from the spec: `open(bytes)` — check magic, version, endianness
and dtype, then parse the full descriptor table; what follows it is the
payload section. -/
def openBlob (bs : List Nat) : Option Handle :=
  match readChunk 4 bs with
  | none => none
  | some (magic, bs1) =>
    if magic = MAGIC then
      match readU32 bs1 with
      | none => none
      | some (ver, bs2) =>
        if ver = VERSION then
          match readU8 bs2 with
          | none => none
          | some (endianTag, bs3) =>
            if endianTag = ENDIANNESS then
              match readU8 bs3 with
              | none => none
              | some (dtypeTag, bs4) =>
                if dtypeTag = DTYPE_F32 then
                  match readU32 bs4 with
                  | none => none
                  | some (count, bs5) =>
                    match readDescs count bs5 with
                    | none => none
                    | some (ds, payload) => some ⟨ver, ds, payload⟩
                else none
            else none
        else none
    else none

/-- Modelled from the spec: `tensor(handle, name)` — look the name up in the
parsed descriptor table and return its dims together with the payload slice
`[offset, offset + length*4)`. -/
def tensorGet (h : Handle) (name : String) : Option (List Nat × List Nat) :=
  match h.descs.find? (fun d => d.nameBytes == strBytes name) with
  | none => none
  | some d => some (d.dims, (h.payload.drop d.offset).take (4 * d.len))

/-- The descriptor table as the reader will reconstruct it: one `ParsedDesc`
per entry, offsets advancing exactly as in `descTable`. -/
def descsOf : List Entry → Nat → List ParsedDesc
  | [], _ => []
  | e :: rest, off => ⟨strBytes e.name, e.shape, off, e.len⟩ :: descsOf rest (off + e.bytes.length)

/-- Total payload byte length of a list of entries. -/
def totalBytes (es : List Entry) : Nat := (es.map (fun e => e.bytes.length)).sum

/-- Field bounds under which a descriptor record survives the
pack/parse round trip (Python `struct.pack` raises beyond them). -/
def EntryBounded (e : Entry) : Prop :=
  (strBytes e.name).length < 65536 ∧ e.shape.length < 256 ∧
    (∀ d ∈ e.shape, d < 4294967296) ∧ e.len < 4294967296

instance (e : Entry) : Decidable (EntryBounded e) := by
  unfold EntryBounded; infer_instance

/-- The adapter found the name and returned a tensor of the expected shape
(the two checks of the validation loop, in source order). -/
def lookupOk : Option TensorProto → List Nat → Prop
  | none, _ => False
  | some t, expected => infer_shape t = expected

instance (o : Option TensorProto) (e : List Nat) : Decidable (lookupOk o e) :=
  match o with
  | none => isFalse (fun h => h)
  | some t => inferInstanceAs (Decidable (infer_shape t = e))

/-- A looked-up tensor is well formed as a float32 buffer of its shape: its
element count is the product of its dims (guaranteed by
`numpy_helper.to_array`, which fails on malformed initializer data). -/
def lookupWF : Option TensorProto → Prop
  | none => True
  | some t => t.elems.length = t.dims.prod

instance (o : Option TensorProto) : Decidable (lookupWF o) :=
  match o with
  | none => isTrue trivial
  | some t => inferInstanceAs (Decidable (t.elems.length = t.dims.prod))

/-- A placeholder manifest entry used as the default of `List.getD`. -/
def noManifestTensor : ManifestTensor := ⟨"", [], "", 0, ""⟩

/-- The worked example of the spec (section 8): catalog
`[("a", (2,2), "s1"), ("b", (3,), "s1")]`. -/
def sampleCatalog : List TensorDescriptor := [("a", [2, 2], "s1"), ("b", [3], "s1")]

/-- The adapter of the worked example: `a` is 4 floats, `b` is 3 floats
(element values stand for the 32-bit patterns of the floats). -/
def sampleModels : Models := fun stage name =>
  if stage = "s1" then
    if name = "a" then some ⟨[2, 2], [1, 2, 3, 4]⟩
    else if name = "b" then some ⟨[3], [5, 6, 7]⟩
    else none
  else none

/-- The entries the writer builds from the worked example. -/
def sampleEntries : List Entry :=
  [⟨"a", [2, 2], 4, [1, 0, 0, 0, 2, 0, 0, 0, 3, 0, 0, 0, 4, 0, 0, 0], "s1"⟩,
   ⟨"b", [3], 3, [5, 0, 0, 0, 6, 0, 0, 0, 7, 0, 0, 0], "s1"⟩]

/-- A stand-in digest function used to instantiate the digest parameter `H`. -/
def sampleHash : List Nat → String := fun bs => Nat.repr bs.sum

/-- A catalog that repeats the name `a` in two different stages — permitted by
the catalog contract, which requires names to be unique only within a stage. -/
def dupCatalog : List TensorDescriptor := [("a", [1], "stage1"), ("a", [1], "stage2")]

/-- An adapter giving the two same-named tensors different payloads. -/
def dupModels : Models := fun stage name =>
  if name = "a" then
    if stage = "stage1" then some ⟨[1], [5]⟩
    else if stage = "stage2" then some ⟨[1], [7]⟩
    else none
  else none

/-- The entries the writer builds from `dupCatalog` and `dupModels`. -/
def dupEntries : List Entry :=
  [⟨"a", [1], 1, [5, 0, 0, 0], "stage1"⟩, ⟨"a", [1], 1, [7, 0, 0, 0], "stage2"⟩]

/-- The reader's handle for the blob written from `dupEntries`. -/
def dupHandle : Handle :=
  ⟨1, [⟨[97], [1], 0, 1⟩, ⟨[97], [1], 4, 1⟩], [5, 0, 0, 0, 7, 0, 0, 0]⟩

/-- An adapter lacking the tensor `b` of the sample catalog. -/
def sampleModelsMissingB : Models := fun stage name =>
  if stage = "s1" then
    if name = "a" then some ⟨[2, 2], [1, 2, 3, 4]⟩ else none
  else none

/-- An adapter returning `b` with shape `(4,)` where the catalog expects `(3,)`. -/
def sampleModelsBadB : Models := fun stage name =>
  if stage = "s1" then
    if name = "a" then some ⟨[2, 2], [1, 2, 3, 4]⟩
    else if name = "b" then some ⟨[4], [5, 6, 7, 8]⟩
    else none
  else none

/-- An adapter agreeing with `sampleModels` on every cataloged (stage, name)
pair but differing elsewhere. -/
def sampleModelsAlt : Models := fun stage name =>
  if stage = "s1" then
    if name = "a" then some ⟨[2, 2], [1, 2, 3, 4]⟩
    else if name = "b" then some ⟨[3], [5, 6, 7]⟩
    else some ⟨[1], [0]⟩
  else some ⟨[1], [0]⟩

/-- The catalog prefix before the failing entry in the fail-fast witnesses. -/
def preA : List TensorDescriptor := [("a", [2, 2], "s1")]

/-- Catalog entries after the failing one, never reached by the loop. -/
def restZ : List TensorDescriptor := [("zzz", [9], "s1")]

end DTLN

deriving instance DecidableEq for Except

namespace DTLN

theorem length_flatten_packU32 (l : List Nat) :
    ((l.map packU32).flatten).length = 4 * l.length := by
  induction l with
  | nil => rfl
  | cons a l ih =>
    simp only [List.map_cons, List.flatten_cons, List.length_append, ih, packU32,
      List.length_cons, List.length_nil]
    omega

theorem length_float32_bytes (t : TensorProto) :
    (float32_bytes t).length = 4 * t.elems.length :=
  length_flatten_packU32 t.elems

theorem mkEntry_len (n st : String) (t : TensorProto) :
    (mkEntry n st t).len = t.elems.length := by
  simp only [mkEntry, length_float32_bytes]
  omega

theorem mkEntry_bytes_length (n st : String) (t : TensorProto) :
    (mkEntry n st t).bytes.length = 4 * (mkEntry n st t).len := by
  simp only [mkEntry, length_float32_bytes, mkEntry_len]
  omega

theorem readU8_pack (n : Nat) (r : List Nat) (h : n < 256) :
    readU8 (packU8 n ++ r) = some (n, r) := by
  simp [readU8, packU8, Nat.mod_eq_of_lt h]

theorem readU16_pack (n : Nat) (r : List Nat) (h : n < 65536) :
    readU16 (packU16 n ++ r) = some (n, r) := by
  simp only [packU16, List.cons_append, List.nil_append, readU16, Option.some.injEq,
    Prod.mk.injEq, and_true]
  omega

theorem readU32_pack (n : Nat) (r : List Nat) (h : n < 4294967296) :
    readU32 (packU32 n ++ r) = some (n, r) := by
  simp only [packU32, List.cons_append, List.nil_append, readU32, Option.some.injEq,
    Prod.mk.injEq, and_true]
  omega

theorem readChunk_left (xs r : List Nat) : readChunk xs.length (xs ++ r) = some (xs, r) := by
  unfold readChunk
  rw [if_pos (by simp)]
  rw [List.take_left, List.drop_left]

theorem readDims_pack (ds : List Nat) (r : List Nat) (h : ∀ x ∈ ds, x < 4294967296) :
    readDims ds.length ((ds.map packU32).flatten ++ r) = some (ds, r) := by
  induction ds generalizing r with
  | nil => simp [readDims]
  | cons d ds ih =>
    simp only [List.map_cons, List.flatten_cons, List.length_cons, List.append_assoc,
      readDims, readU32_pack d _ (h d (List.mem_cons_self d ds)),
      ih _ (fun x hx => h x (List.mem_cons_of_mem d hx))]

theorem readDesc_record (e : Entry) (off : Nat) (r : List Nat)
    (hb : EntryBounded e) (hoff : off < 4294967296) :
    readDesc (descRecord e off ++ r) = some (⟨strBytes e.name, e.shape, off, e.len⟩, r) := by
  obtain ⟨h1, h2, h3, h4⟩ := hb
  unfold descRecord
  simp only [List.append_assoc]
  simp only [readDesc, readU16_pack _ _ h1, readChunk_left, readU8_pack _ _ h2,
    readDims_pack _ _ h3, readU32_pack _ _ hoff, readU32_pack _ _ h4]

theorem readDescs_table (es : List Entry) (off : Nat) (r : List Nat)
    (hb : ∀ e ∈ es, EntryBounded e) (htot : off + totalBytes es < 4294967296) :
    readDescs es.length (descTable es off ++ r) = some (descsOf es off, r) := by
  induction es generalizing off with
  | nil => simp [readDescs, descTable, descsOf]
  | cons e es ih =>
    have htot' : (off + e.bytes.length) + totalBytes es < 4294967296 := by
      simp only [totalBytes, List.map_cons, List.sum_cons] at htot ⊢
      omega
    simp only [descTable, List.length_cons, List.append_assoc, descsOf]
    simp only [readDescs, readDesc_record e off _ (hb e (List.mem_cons_self e es))
      (by simp only [totalBytes, List.map_cons, List.sum_cons] at htot; omega),
      ih (off + e.bytes.length) (fun x hx => hb x (List.mem_cons_of_mem e hx)) htot']

theorem readChunk_magic (r : List Nat) : readChunk 4 (MAGIC ++ r) = some (MAGIC, r) := by
  rw [show (4 : Nat) = MAGIC.length by decide, readChunk_left]

/-- The reader accepts every blob the writer emits and reconstructs exactly the
descriptor table and the payload section, provided every packed field fits its
wire width. -/
theorem openBlob_blobBytes (es : List Entry)
    (hb : ∀ e ∈ es, EntryBounded e) (hcount : es.length < 4294967296)
    (htot : totalBytes es < 4294967296) :
    openBlob (blobBytes es) = some ⟨VERSION, descsOf es 0, payloadBytes es⟩ := by
  unfold blobBytes
  simp only [List.append_assoc]
  simp only [openBlob, readChunk_magic, readU32_pack VERSION _ (by decide),
    readU8_pack ENDIANNESS _ (by decide), readU8_pack DTYPE_F32 _ (by decide),
    readU32_pack es.length _ hcount,
    readDescs_table es 0 (payloadBytes es) hb (by omega), if_true, eq_self_iff_true]

theorem bytesBefore_zero (es : List Entry) : bytesBefore es 0 = 0 := by
  cases es <;> rfl

theorem bytesBefore_succ (es : List Entry) (i : Nat) (hi : i < es.length) :
    bytesBefore es (i + 1) = bytesBefore es i + (es.getD i noEntry).bytes.length := by
  induction es generalizing i with
  | nil => simp at hi
  | cons e es ih =>
    cases i with
    | zero => simp [bytesBefore, bytesBefore_zero]
    | succ i =>
      simp only [bytesBefore, ih i (by simpa using hi), List.getD_cons_succ]
      omega

theorem bytesBefore_le (es : List Entry) (i : Nat) : bytesBefore es i ≤ totalBytes es := by
  induction es generalizing i with
  | nil => cases i <;> simp [bytesBefore, totalBytes]
  | cons e es ih =>
    cases i with
    | zero => simp [bytesBefore_zero]
    | succ i =>
      simp only [bytesBefore, totalBytes, List.map_cons, List.sum_cons]
      have := ih i
      simp only [totalBytes] at this
      omega

theorem payload_slice (es : List Entry) (i : Nat) (hi : i < es.length) :
    ((payloadBytes es).drop (bytesBefore es i)).take ((es.getD i noEntry).bytes.length)
      = (es.getD i noEntry).bytes := by
  induction es generalizing i with
  | nil => simp at hi
  | cons e es ih =>
    cases i with
    | zero =>
      simp only [List.getD_cons_zero, payloadBytes, List.map_cons, List.flatten_cons,
        bytesBefore_zero, List.drop_zero, List.take_left]
    | succ i =>
      simp only [List.getD_cons_succ, payloadBytes, List.map_cons, List.flatten_cons]
      show ((e.bytes ++ (es.map (fun e => e.bytes)).flatten).drop
        (bytesBefore (e :: es) (i + 1))).take _ = _
      rw [show bytesBefore (e :: es) (i + 1) = e.bytes.length + bytesBefore es i from rfl,
        List.drop_append (bytesBefore es i)]
      exact ih i (by simpa using hi)

theorem find_descsOf (es : List Entry) (off i : Nat) (hi : i < es.length)
    (hd : (es.map (fun e => strBytes e.name)).Pairwise (fun a b => a ≠ b)) :
    (descsOf es off).find? (fun d => d.nameBytes == strBytes ((es.getD i noEntry).name))
      = some ⟨strBytes ((es.getD i noEntry).name), (es.getD i noEntry).shape,
          off + bytesBefore es i, (es.getD i noEntry).len⟩ := by
  induction es generalizing off i with
  | nil => simp at hi
  | cons e es ih =>
    cases i with
    | zero =>
      simp only [List.getD_cons_zero, descsOf]
      rw [List.find?_cons_of_pos _ (by simp), bytesBefore_zero]
      simp
    | succ i =>
      have hi' : i < es.length := by simpa using hi
      have hd' : (∀ a ∈ es, ¬strBytes e.name = strBytes a.name) ∧
          (es.map (fun e => strBytes e.name)).Pairwise (fun a b => a ≠ b) := by
        simpa using hd
      have hmem : es.getD i noEntry ∈ es := by
        rw [List.getD_eq_getElem es noEntry hi']
        exact List.getElem_mem hi'
      have hne := hd'.1 _ hmem
      simp only [descsOf, List.getD_cons_succ]
      rw [List.find?_cons_of_neg _ (by simpa using hne),
        ih (off + e.bytes.length) i hi' hd'.2,
        show bytesBefore (e :: es) (i + 1) = e.bytes.length + bytesBefore es i from rfl]
      simp only [Nat.add_assoc]

/-- Inversion of the validation loop: a successful run means every catalog
entry was found with the expected shape, and the entries list records, in
catalog order, exactly the tensors the adapter returned. -/
theorem buildEntries_ok (c : List TensorDescriptor) (m : Models) (es : List Entry)
    (h : buildEntries c m = .ok es) :
    es.length = c.length ∧
    ∀ i, i < c.length →
      ∃ t, m (c.getD i noDescr).2.2 (c.getD i noDescr).1 = some t ∧
        infer_shape t = (c.getD i noDescr).2.1 ∧
        es.getD i noEntry = mkEntry (c.getD i noDescr).1 (c.getD i noDescr).2.2 t := by
  induction c generalizing es with
  | nil =>
    simp only [buildEntries] at h
    cases h
    simp
  | cons d rest ih =>
    obtain ⟨n, exp, st⟩ := d
    simp only [buildEntries] at h
    cases hm : m st n with
    | none => simp only [hm] at h; exact Except.noConfusion h
    | some t =>
      simp only [hm] at h
      by_cases hsh : infer_shape t = exp
      · rw [if_neg (by simp [hsh])] at h
        cases hrec : buildEntries rest m with
        | error e => simp only [hrec] at h; exact Except.noConfusion h
        | ok es2 =>
          simp only [hrec, Except.ok.injEq] at h
          subst h
          obtain ⟨hlen, hidx⟩ := ih es2 hrec
          refine ⟨by simpa using hlen, ?_⟩
          intro i hilt
          cases i with
          | zero => exact ⟨t, by simpa using hm, by simpa using hsh, by simp⟩
          | succ i =>
            simpa only [List.getD_cons_succ] using hidx i (by simpa using hilt)
      · rw [if_pos (by simpa using hsh)] at h
        cases h

/-- A validation error occurring after a fully valid catalog prefix is the
result of the whole run. -/
theorem buildEntries_prefix_error (pre : List TensorDescriptor) (m : Models)
    (err : ExportError) (hpre : ∀ d ∈ pre, lookupOk (m d.2.2 d.1) d.2.1)
    (rest : List TensorDescriptor) (h : buildEntries rest m = .error err) :
    buildEntries (pre ++ rest) m = .error err := by
  induction pre with
  | nil => simpa using h
  | cons d pre ih =>
    obtain ⟨n, exp, st⟩ := d
    have hd := hpre (n, exp, st) (List.mem_cons_self _ _)
    cases hm : m st n with
    | none => rw [hm] at hd; exact absurd hd (fun hf => hf)
    | some t =>
      rw [hm] at hd
      simp only [List.cons_append, buildEntries, hm]
      rw [if_neg (by simpa using hd)]
      simp only [List.append_eq, ih (fun d hdm => hpre d (List.mem_cons_of_mem _ hdm))]

/-- The outcome of the run depends only on the adapter's answers at the
cataloged (stage, name) pairs. -/
theorem buildEntries_congr (c : List TensorDescriptor) (m1 m2 : Models)
    (hagree : ∀ d ∈ c, m1 d.2.2 d.1 = m2 d.2.2 d.1) :
    buildEntries c m1 = buildEntries c m2 := by
  induction c with
  | nil => rfl
  | cons d rest ih =>
    obtain ⟨n, exp, st⟩ := d
    have h0 : m1 st n = m2 st n := hagree (n, exp, st) (List.mem_cons_self _ _)
    simp only [buildEntries, h0, ih (fun d hd => hagree d (List.mem_cons_of_mem _ hd))]

theorem entries_bytes_len (c : List TensorDescriptor) (m : Models) (es : List Entry)
    (h : buildEntries c m = .ok es) (i : Nat) (hi : i < es.length) :
    (es.getD i noEntry).bytes.length = 4 * (es.getD i noEntry).len := by
  obtain ⟨hlen, hidx⟩ := buildEntries_ok c m es h
  obtain ⟨t, _, _, he⟩ := hidx i (by omega)
  rw [he]
  exact mkEntry_bytes_length _ _ _

theorem entries_bytes_len_mem (c : List TensorDescriptor) (m : Models) (es : List Entry)
    (h : buildEntries c m = .ok es) : ∀ e ∈ es, e.bytes.length = 4 * e.len := by
  intro e he
  obtain ⟨i, hi, hei⟩ := List.mem_iff_getElem.mp he
  have := entries_bytes_len c m es h i hi
  rwa [List.getD_eq_getElem es noEntry hi, hei] at this

theorem descTable_eq_flatten (es : List Entry) (off : Nat) :
    descTable es off
      = ((List.range es.length).map
          (fun i => descRecord (es.getD i noEntry) (off + bytesBefore es i))).flatten := by
  induction es generalizing off with
  | nil => simp [descTable]
  | cons e es ih =>
    simp only [descTable, List.length_cons, List.range_succ_eq_map, List.map_cons,
      List.flatten_cons, List.map_map]
    congr 1
    rw [ih (off + e.bytes.length)]
    congr 1
    apply List.map_congr_left
    intro i _
    simp only [Function.comp_apply, List.getD_cons_succ, bytesBefore, Nat.add_assoc]

theorem length_offsetsOf (es : List Entry) (off : Nat) :
    (offsetsOf es off).length = es.length := by
  induction es generalizing off with
  | nil => rfl
  | cons e es ih => simp [offsetsOf, ih]

theorem offsetsOf_getD (es : List Entry) (off i : Nat) (hi : i < es.length) :
    (offsetsOf es off).getD i 0 = off + bytesBefore es i := by
  induction es generalizing off i with
  | nil => simp at hi
  | cons e es ih =>
    cases i with
    | zero => simp [offsetsOf, bytesBefore_zero]
    | succ i =>
      simp only [offsetsOf, List.getD_cons_succ, ih (off + e.bytes.length) i (by simpa using hi),
        bytesBefore, Nat.add_assoc]

theorem bytesBefore_mono (es : List Entry) (i j : Nat) (hij : i ≤ j) :
    bytesBefore es i ≤ bytesBefore es j := by
  induction es generalizing i j with
  | nil => cases i <;> cases j <;> simp [bytesBefore]
  | cons e es ih =>
    cases i with
    | zero => rw [bytesBefore_zero]; exact Nat.zero_le _
    | succ i =>
      cases j with
      | zero => omega
      | succ j =>
        simp only [bytesBefore]
        have := ih i j (by omega)
        omega

theorem length_payloadBytes (es : List Entry) :
    (payloadBytes es).length = (es.map (fun e => e.bytes.length)).sum := by
  induction es with
  | nil => rfl
  | cons e es ih =>
    simp only [payloadBytes, List.map_cons, List.flatten_cons, List.length_append,
      List.sum_cons] at ih ⊢
    omega

theorem getD_map_entry {β : Type} (f : Entry → β) (es : List Entry) (i : Nat)
    (hi : i < es.length) (dflt : β) :
    (es.map f).getD i dflt = f (es.getD i noEntry) := by
  rw [List.getD_eq_getElem (es.map f) dflt (by simpa using hi), List.getElem_map,
    List.getD_eq_getElem es noEntry hi]

theorem getD_mem_c (c : List TensorDescriptor) (i : Nat) (hi : i < c.length) :
    c.getD i noDescr ∈ c := by
  rw [List.getD_eq_getElem c noDescr hi]
  exact List.getElem_mem hi

theorem blobBytes_drop (es : List Entry) (k : Nat) :
    (blobBytes es).drop (14 + (descTable es 0).length + k) = (payloadBytes es).drop k := by
  have hsplit : blobBytes es = (MAGIC ++ packU32 VERSION ++ packU8 ENDIANNESS ++
      packU8 DTYPE_F32 ++ packU32 es.length ++ descTable es 0) ++ payloadBytes es := by
    simp [blobBytes]
  have hm4 : MAGIC.length = 4 := by decide
  have hlen : (MAGIC ++ packU32 VERSION ++ packU8 ENDIANNESS ++
      packU8 DTYPE_F32 ++ packU32 es.length ++ descTable es 0).length
      = 14 + (descTable es 0).length := by
    simp only [List.length_append, hm4, packU32, packU8, List.length_cons, List.length_nil]
  rw [hsplit, ← hlen, List.drop_append k]

/-- Claim C10: the export is atomic with respect to its outputs.  The
validation loop over the whole catalog runs to completion before the blob file
or the manifest file is opened, so whenever validation fails — with
`missingTensor` or `shapeMismatch`, even on the last catalog entry — the export
returns that error and produces neither a blob nor a manifest. -/
theorem C10_atomic_outputs (H : List Nat → String) (c : List TensorDescriptor)
    (m : Models) (err : ExportError) (h : buildEntries c m = .error err) :
    mainExport H c m = .error err := by
  simp [mainExport, h]

/-- Witness for C10: an adapter lacking the last cataloged tensor `b`; the run
fails with `missingTensor` and yields no (blob, manifest) pair. -/
theorem C10_atomic_outputs_witness :
    buildEntries sampleCatalog sampleModelsMissingB = .error (.missingTensor "b" "s1") ∧
    mainExport sampleHash sampleCatalog sampleModelsMissingB
      = .error (.missingTensor "b" "s1") :=
  ⟨by decide, C10_atomic_outputs sampleHash sampleCatalog sampleModelsMissingB _ (by decide)⟩

/-- Claim C8: the writer is deterministic.  The run is a pure function of the
adapter's answers at the cataloged (stage, name) pairs, so two runs over
identical adapter inputs — even adapters differing outside the catalog —
produce byte-identical blobs and identical manifests (same checksums, same
offsets). -/
theorem C8_deterministic (H : List Nat → String) (c : List TensorDescriptor)
    (m1 m2 : Models) (hagree : ∀ d ∈ c, m1 d.2.2 d.1 = m2 d.2.2 d.1) :
    mainExport H c m1 = mainExport H c m2 := by
  simp only [mainExport, buildEntries_congr c m1 m2 hagree]

/-- Witness for C8 at the sample catalog, against an adapter agreeing only on
the cataloged pairs. -/
theorem C8_deterministic_witness :
    (∀ d ∈ sampleCatalog, sampleModels d.2.2 d.1 = sampleModelsAlt d.2.2 d.1) ∧
    mainExport sampleHash sampleCatalog sampleModels
      = mainExport sampleHash sampleCatalog sampleModelsAlt :=
  ⟨by decide, C8_deterministic sampleHash sampleCatalog sampleModels sampleModelsAlt (by decide)⟩

/-- Claim C7: the validation loop walks the catalog in order and, at the first
descriptor whose name is absent from its stage's source mapping, fails with
`missingTensor` naming that tensor and stage — whatever descriptors follow and
whatever the adapter would answer for them (the result does not depend on
`rest`). -/
theorem C7_missing_fail_fast (m : Models) (pre : List TensorDescriptor)
    (n : String) (exp : List Nat) (st : String)
    (hpre : ∀ d ∈ pre, lookupOk (m d.2.2 d.1) d.2.1)
    (hmiss : m st n = none) (rest : List TensorDescriptor) :
    buildEntries (pre ++ (n, exp, st) :: rest) m = .error (.missingTensor n st) := by
  apply buildEntries_prefix_error pre m _ hpre
  simp [buildEntries, hmiss]

/-- Witness for C7: `b` missing after the valid prefix `a`, with a further
descriptor behind it that is never reached. -/
theorem C7_missing_fail_fast_witness :
    (∀ d ∈ preA, lookupOk (sampleModelsMissingB d.2.2 d.1) d.2.1) ∧
    sampleModelsMissingB "s1" "b" = none ∧
    buildEntries (preA ++ ("b", [3], "s1") :: restZ) sampleModelsMissingB
      = .error (.missingTensor "b" "s1") :=
  ⟨by decide, by decide,
    C7_missing_fail_fast sampleModelsMissingB preA "b" [3] "s1" (by decide) (by decide) restZ⟩

/-- Claim C4: when the adapter supplies the tensor but with a shape other than
the cataloged `expected_shape` (and every earlier descriptor validated), the
run fails with `shapeMismatch` carrying the tensor's name, the expected shape
and the actual shape, and the export produces no blob (and no manifest). -/
theorem C4_shape_mismatch (H : List Nat → String) (m : Models)
    (pre : List TensorDescriptor) (n : String) (exp : List Nat) (st : String)
    (t : TensorProto) (hpre : ∀ d ∈ pre, lookupOk (m d.2.2 d.1) d.2.1)
    (hlook : m st n = some t) (hne : infer_shape t ≠ exp)
    (rest : List TensorDescriptor) :
    buildEntries (pre ++ (n, exp, st) :: rest) m
      = .error (.shapeMismatch n exp (infer_shape t)) ∧
    mainExport H (pre ++ (n, exp, st) :: rest) m
      = .error (.shapeMismatch n exp (infer_shape t)) := by
  have hb : buildEntries (pre ++ (n, exp, st) :: rest) m
      = .error (.shapeMismatch n exp (infer_shape t)) := by
    apply buildEntries_prefix_error pre m _ hpre
    simp only [buildEntries, hlook]
    rw [if_pos (by simpa using hne)]
  exact ⟨hb, by simp [mainExport, hb]⟩

/-- Witness for C4: `b` arrives with shape `(4,)` where the catalog expects
`(3,)`; the run fails with `shapeMismatch "b" [3] [4]` and yields no output. -/
theorem C4_shape_mismatch_witness :
    (∀ d ∈ preA, lookupOk (sampleModelsBadB d.2.2 d.1) d.2.1) ∧
    sampleModelsBadB "s1" "b" = some ⟨[4], [5, 6, 7, 8]⟩ ∧
    buildEntries (preA ++ ("b", [3], "s1") :: restZ) sampleModelsBadB
      = .error (.shapeMismatch "b" [3] [4]) ∧
    mainExport sampleHash (preA ++ ("b", [3], "s1") :: restZ) sampleModelsBadB
      = .error (.shapeMismatch "b" [3] [4]) :=
  ⟨by decide, by decide,
    (C4_shape_mismatch sampleHash sampleModelsBadB preA "b" [3] "s1" ⟨[4], [5, 6, 7, 8]⟩
      (by decide) (by decide) (by decide) restZ).1,
    (C4_shape_mismatch sampleHash sampleModelsBadB preA "b" [3] "s1" ⟨[4], [5, 6, 7, 8]⟩
      (by decide) (by decide) (by decide) restZ).2⟩

/-- Claim C1: a successful write yields a blob that is exactly the 4-byte magic
"DTLN" (bytes 68, 84, 76, 78), the version as uint32 little-endian, the
endianness byte 0, the dtype byte 0, the tensor count as uint32 little-endian
equal to the number of catalog entries, then one descriptor record per catalog
entry in catalog order — each record being name_length (uint16 LE), the UTF-8
name bytes, dim_count (uint8), one uint32 LE per dim, payload_offset (uint32
LE) and element_count (uint32 LE), exactly as `descRecord` lays them out — and
the records carry the cataloged names and shapes in catalog position. -/
theorem C1_blob_layout (c : List TensorDescriptor) (m : Models) (es : List Entry)
    (h : buildEntries c m = .ok es) :
    MAGIC = [68, 84, 76, 78] ∧
    es.length = c.length ∧
    blobBytes es = MAGIC ++ packU32 VERSION ++ packU8 ENDIANNESS ++ packU8 DTYPE_F32 ++
        packU32 c.length ++
        ((List.range c.length).map
          (fun i => descRecord (es.getD i noEntry) (bytesBefore es i))).flatten ++
        payloadBytes es ∧
    (∀ i, i < c.length →
      (es.getD i noEntry).name = (c.getD i noDescr).1 ∧
      (es.getD i noEntry).shape = (c.getD i noDescr).2.1) := by
  obtain ⟨hlen, hidx⟩ := buildEntries_ok c m es h
  refine ⟨by decide, hlen, ?_, ?_⟩
  · rw [blobBytes, descTable_eq_flatten es 0, hlen]
    simp only [Nat.zero_add]
  · intro i hi
    obtain ⟨t, hm, hsh, he⟩ := hidx i hi
    rw [he]
    exact ⟨rfl, hsh⟩

/-- Witness for C1 at the worked example of the spec. -/
theorem C1_blob_layout_witness :
    buildEntries sampleCatalog sampleModels = .ok sampleEntries ∧
    (MAGIC = [68, 84, 76, 78] ∧
    sampleEntries.length = sampleCatalog.length ∧
    blobBytes sampleEntries = MAGIC ++ packU32 VERSION ++ packU8 ENDIANNESS ++
        packU8 DTYPE_F32 ++ packU32 sampleCatalog.length ++
        ((List.range sampleCatalog.length).map
          (fun i => descRecord (sampleEntries.getD i noEntry)
            (bytesBefore sampleEntries i))).flatten ++
        payloadBytes sampleEntries ∧
    (∀ i, i < sampleCatalog.length →
      (sampleEntries.getD i noEntry).name = (sampleCatalog.getD i noDescr).1 ∧
      (sampleEntries.getD i noEntry).shape = (sampleCatalog.getD i noDescr).2.1)) :=
  ⟨by decide, C1_blob_layout sampleCatalog sampleModels sampleEntries (by decide)⟩

/-- Claim C6: in every successfully written blob, the bytes after the
descriptor table (the header is 14 bytes) are exactly the concatenation of the
entries' raw float32 payloads in descriptor-table order, with nothing between
them, and the payload section's length is the sum over all tensors of
element_count * 4. -/
theorem C6_payload_concat (c : List TensorDescriptor) (m : Models) (es : List Entry)
    (h : buildEntries c m = .ok es) :
    (blobBytes es).drop (14 + (descTable es 0).length) = (es.map (fun e => e.bytes)).flatten ∧
    (payloadBytes es).length = (es.map (fun e => 4 * e.len)).sum := by
  constructor
  · have := blobBytes_drop es 0
    simpa [payloadBytes] using this
  · rw [length_payloadBytes, List.map_congr_left (entries_bytes_len_mem c m es h)]

/-- Witness for C6 at the worked example: payload length 16 + 12 = 28. -/
theorem C6_payload_concat_witness :
    buildEntries sampleCatalog sampleModels = .ok sampleEntries ∧
    (blobBytes sampleEntries).drop (14 + (descTable sampleEntries 0).length)
      = (sampleEntries.map (fun e => e.bytes)).flatten ∧
    (payloadBytes sampleEntries).length
      = (sampleEntries.map (fun e => 4 * e.len)).sum ∧
    (payloadBytes sampleEntries).length = 28 :=
  ⟨by decide, (C6_payload_concat sampleCatalog sampleModels sampleEntries (by decide)).1,
    (C6_payload_concat sampleCatalog sampleModels sampleEntries (by decide)).2, by decide⟩

/-- Claim C3: the generated manifest records the global version, the dtype tag
"f32" and a tensor_count equal to the number of tensor entries, and each
tensor's checksum field is the digest `H` (standing for hex-encoded SHA-256)
applied to exactly the raw payload bytes written into the blob for that tensor
— the slice of the blob starting right after the descriptor table at that
tensor's offset and extending for element_count * 4 bytes. -/
theorem C3_manifest_checksums (H : List Nat → String) (c : List TensorDescriptor)
    (m : Models) (es : List Entry) (h : buildEntries c m = .ok es) :
    (manifestOf H es).version = VERSION ∧
    (manifestOf H es).dtype = "f32" ∧
    (manifestOf H es).tensor_count = (manifestOf H es).tensors.length ∧
    (manifestOf H es).tensors.length = es.length ∧
    ∀ i, i < es.length →
      ((manifestOf H es).tensors.getD i noManifestTensor).checksum
        = H (((blobBytes es).drop (14 + (descTable es 0).length + bytesBefore es i)).take
            ((es.getD i noEntry).len * 4)) := by
  refine ⟨rfl, rfl, by simp [manifestOf], by simp [manifestOf], ?_⟩
  intro i hi
  simp only [manifestOf]
  rw [getD_map_entry _ es i hi, blobBytes_drop es (bytesBefore es i),
    show (es.getD i noEntry).len * 4 = (es.getD i noEntry).bytes.length from by
      rw [entries_bytes_len c m es h i hi]; omega,
    payload_slice es i hi]

/-- Witness for C3 at the worked example. -/
theorem C3_manifest_checksums_witness :
    buildEntries sampleCatalog sampleModels = .ok sampleEntries ∧
    ((manifestOf sampleHash sampleEntries).version = VERSION ∧
    (manifestOf sampleHash sampleEntries).dtype = "f32" ∧
    (manifestOf sampleHash sampleEntries).tensor_count
      = (manifestOf sampleHash sampleEntries).tensors.length ∧
    (manifestOf sampleHash sampleEntries).tensors.length = sampleEntries.length ∧
    ∀ i, i < sampleEntries.length →
      ((manifestOf sampleHash sampleEntries).tensors.getD i noManifestTensor).checksum
        = sampleHash (((blobBytes sampleEntries).drop
            (14 + (descTable sampleEntries 0).length + bytesBefore sampleEntries i)).take
            ((sampleEntries.getD i noEntry).len * 4))) :=
  ⟨by decide,
    C3_manifest_checksums sampleHash sampleCatalog sampleModels sampleEntries (by decide)⟩

/-- Claim C5: every entry of a successful (well-formed) run has byte length
equal to product(actual_shape) * 4, and the element count recorded as `len` —
the value serialized into the descriptor record by `descRecord` and into the
manifest entry — equals product(actual_shape). -/
theorem C5_element_counts (H : List Nat → String) (c : List TensorDescriptor)
    (m : Models) (es : List Entry) (h : buildEntries c m = .ok es)
    (hwf : ∀ d ∈ c, lookupWF (m d.2.2 d.1)) (i : Nat) (hi : i < es.length) :
    (es.getD i noEntry).bytes.length = (es.getD i noEntry).shape.prod * 4 ∧
    (es.getD i noEntry).len = (es.getD i noEntry).shape.prod ∧
    ((manifestOf H es).tensors.getD i noManifestTensor).len
      = (es.getD i noEntry).shape.prod := by
  obtain ⟨hlen, hidx⟩ := buildEntries_ok c m es h
  obtain ⟨t, hm, hsh, he⟩ := hidx i (by omega)
  have hw : t.elems.length = t.dims.prod := by
    have := hwf (c.getD i noDescr) (getD_mem_c c i (by omega))
    rw [hm] at this
    exact this
  have hlen2 : (es.getD i noEntry).len = (es.getD i noEntry).shape.prod := by
    rw [he, mkEntry_len]
    show t.elems.length = (mkEntry _ _ t).shape.prod
    rw [hw]
    rfl
  refine ⟨?_, hlen2, ?_⟩
  · rw [entries_bytes_len c m es h i hi, hlen2, Nat.mul_comm]
  · simp only [manifestOf]
    rw [getD_map_entry _ es i hi]
    exact hlen2

/-- Witness for C5 at the worked example, tensor `b`: 3 elements, 12 bytes. -/
theorem C5_element_counts_witness :
    buildEntries sampleCatalog sampleModels = .ok sampleEntries ∧
    (∀ d ∈ sampleCatalog, lookupWF (sampleModels d.2.2 d.1)) ∧
    ((sampleEntries.getD 1 noEntry).bytes.length
        = (sampleEntries.getD 1 noEntry).shape.prod * 4 ∧
      (sampleEntries.getD 1 noEntry).len = (sampleEntries.getD 1 noEntry).shape.prod ∧
      ((manifestOf sampleHash sampleEntries).tensors.getD 1 noManifestTensor).len
        = (sampleEntries.getD 1 noEntry).shape.prod) :=
  ⟨by decide, by decide,
    C5_element_counts sampleHash sampleCatalog sampleModels sampleEntries
      (by decide) (by decide) 1 (by decide)⟩

/-- Claim C2: in every successfully written blob the recorded descriptor
offsets (the successive values of the writer's running `offset` variable, which
`descTable` packs into the records, as the last conjunct shows) satisfy
`offset[0] = 0` and `offset[i+1] = offset[i] + length[i]*4` with `length` the
recorded element count; consequently payload regions never overlap
(`offset[i] + length[i]*4 ≤ offset[j]` for `i < j`), and — when every cataloged
dim is positive and the adapter's tensors are well-formed float32 buffers, so
that every tensor has at least one element — the offsets are strictly
increasing. -/
theorem C2_offset_contiguity (c : List TensorDescriptor) (m : Models) (es : List Entry)
    (h : buildEntries c m = .ok es) :
    (offsetsOf es 0).getD 0 0 = 0 ∧
    (∀ i, i + 1 < es.length →
      (offsetsOf es 0).getD (i + 1) 0
        = (offsetsOf es 0).getD i 0 + (es.getD i noEntry).len * 4) ∧
    (∀ i j, i < j → j < es.length →
      (offsetsOf es 0).getD i 0 + (es.getD i noEntry).len * 4
        ≤ (offsetsOf es 0).getD j 0) ∧
    ((∀ d ∈ c, ∀ x ∈ d.2.1, 0 < x) → (∀ d ∈ c, lookupWF (m d.2.2 d.1)) →
      ∀ i j, i < j → j < es.length →
        (offsetsOf es 0).getD i 0 < (offsetsOf es 0).getD j 0) ∧
    descTable es 0
      = ((List.range es.length).map
          (fun i => descRecord (es.getD i noEntry) ((offsetsOf es 0).getD i 0))).flatten := by
  obtain ⟨hlen, hidx⟩ := buildEntries_ok c m es h
  refine ⟨?_, ?_, ?_, ?_, ?_⟩
  · cases es <;> simp [offsetsOf]
  · intro i hsucc
    have hi : i < es.length := by omega
    rw [offsetsOf_getD es 0 (i + 1) hsucc, offsetsOf_getD es 0 i hi,
      bytesBefore_succ es i hi, entries_bytes_len c m es h i hi]
    omega
  · intro i j hij hj
    have hi : i < es.length := by omega
    rw [offsetsOf_getD es 0 i hi, offsetsOf_getD es 0 j hj]
    have hs := bytesBefore_succ es i hi
    have hm2 := bytesBefore_mono es (i + 1) j hij
    have hb := entries_bytes_len c m es h i hi
    omega
  · intro hpos hwf i j hij hj
    have hi : i < es.length := by omega
    obtain ⟨t, hm, hsh, he⟩ := hidx i (by omega)
    have hw : t.elems.length = t.dims.prod := by
      have := hwf (c.getD i noDescr) (getD_mem_c c i (by omega))
      rw [hm] at this
      exact this
    have hlp : 0 < (es.getD i noEntry).len := by
      rw [he, mkEntry_len, hw]
      apply List.prod_pos
      intro a ha
      apply hpos (c.getD i noDescr) (getD_mem_c c i (by omega))
      rw [← hsh]
      exact ha
    rw [offsetsOf_getD es 0 i hi, offsetsOf_getD es 0 j hj]
    have hs := bytesBefore_succ es i hi
    have hm2 := bytesBefore_mono es (i + 1) j hij
    have hb := entries_bytes_len c m es h i hi
    omega
  · rw [descTable_eq_flatten es 0]
    congr 1
    apply List.map_congr_left
    intro i hi
    rw [offsetsOf_getD es 0 i (List.mem_range.mp hi), Nat.zero_add]

/-- Witness for C2 at the worked example: offsets 0 and 16, contiguous and
strictly increasing. -/
theorem C2_offset_contiguity_witness :
    buildEntries sampleCatalog sampleModels = .ok sampleEntries ∧
    ((offsetsOf sampleEntries 0).getD 0 0 = 0 ∧
    (∀ i, i + 1 < sampleEntries.length →
      (offsetsOf sampleEntries 0).getD (i + 1) 0
        = (offsetsOf sampleEntries 0).getD i 0 + (sampleEntries.getD i noEntry).len * 4) ∧
    (∀ i j, i < j → j < sampleEntries.length →
      (offsetsOf sampleEntries 0).getD i 0 + (sampleEntries.getD i noEntry).len * 4
        ≤ (offsetsOf sampleEntries 0).getD j 0) ∧
    ((∀ d ∈ sampleCatalog, ∀ x ∈ d.2.1, 0 < x) →
      (∀ d ∈ sampleCatalog, lookupWF (sampleModels d.2.2 d.1)) →
      ∀ i j, i < j → j < sampleEntries.length →
        (offsetsOf sampleEntries 0).getD i 0 < (offsetsOf sampleEntries 0).getD j 0) ∧
    descTable sampleEntries 0
      = ((List.range sampleEntries.length).map
          (fun i => descRecord (sampleEntries.getD i noEntry)
            ((offsetsOf sampleEntries 0).getD i 0))).flatten) ∧
    offsetsOf sampleEntries 0 = [0, 16] :=
  ⟨by decide,
    C2_offset_contiguity sampleCatalog sampleModels sampleEntries (by decide), by decide⟩

/-- Claim C9 (amended): for any catalog whose tensor names are pairwise
distinct (and whose fields fit their wire widths, as `struct.pack` enforces on
the writer side), and any adapter that satisfies every expected shape, opening
the blob produced by the write succeeds and retrieving each cataloged tensor by
name returns its shape and a payload byte-identical to what the adapter
produced for that catalog entry. -/
theorem C9_roundtrip_unique_names (c : List TensorDescriptor) (m : Models)
    (es : List Entry) (h : buildEntries c m = .ok es)
    (hnames : (c.map (fun d => strBytes d.1)).Pairwise (fun a b => a ≠ b))
    (hb : ∀ d ∈ c, (strBytes d.1).length < 65536 ∧ d.2.1.length < 256 ∧
      ∀ x ∈ d.2.1, x < 4294967296)
    (hcount : c.length < 4294967296) (htot : totalBytes es < 4294967296) :
    openBlob (blobBytes es) = some ⟨VERSION, descsOf es 0, payloadBytes es⟩ ∧
    ∀ i, i < c.length →
      ∃ t, m (c.getD i noDescr).2.2 (c.getD i noDescr).1 = some t ∧
        tensorGet ⟨VERSION, descsOf es 0, payloadBytes es⟩ (c.getD i noDescr).1
          = some (infer_shape t, float32_bytes t) := by
  obtain ⟨hlen, hidx⟩ := buildEntries_ok c m es h
  have hbytes := entries_bytes_len_mem c m es h
  have hbe : ∀ e ∈ es, EntryBounded e := by
    intro e he
    obtain ⟨i, hilt, hei⟩ := List.mem_iff_getElem.mp he
    have hgd : es.getD i noEntry = e := by
      rw [List.getD_eq_getElem es noEntry hilt, hei]
    obtain ⟨t, hm, hsh, hmk⟩ := hidx i (by omega)
    obtain ⟨hb1, hb2, hb3⟩ := hb (c.getD i noDescr) (getD_mem_c c i (by omega))
    have hbl : e.bytes.length ≤ totalBytes es := by
      have hmm : e.bytes.length ∈ es.map (fun e => e.bytes.length) :=
        List.mem_map_of_mem _ he
      exact List.single_le_sum (fun x _ => Nat.zero_le x) _ hmm
    have hbfour := hbytes e he
    refine ⟨?_, ?_, ?_, by omega⟩
    · rw [← hgd, hmk]
      exact hb1
    · rw [← hgd, hmk]
      show (infer_shape t).length < 256
      rw [hsh]
      exact hb2
    · rw [← hgd, hmk]
      show ∀ d ∈ infer_shape t, d < 4294967296
      rw [hsh]
      exact hb3
  refine ⟨openBlob_blobBytes es hbe (by omega) htot, ?_⟩
  intro i hi
  have hies : i < es.length := by omega
  obtain ⟨t, hm, hsh, hmk⟩ := hidx i hi
  refine ⟨t, hm, ?_⟩
  have hmapeq : es.map (fun e => strBytes e.name) = c.map (fun d => strBytes d.1) := by
    apply List.ext_getElem (by simp [hlen])
    intro k h1 h2
    simp only [List.getElem_map]
    have h3 : k < es.length := by simpa using h1
    have h4 : k < c.length := by simpa using h2
    obtain ⟨t2, _, _, hmk2⟩ := hidx k h4
    rw [List.getD_eq_getElem es noEntry h3, List.getD_eq_getElem c noDescr h4] at hmk2
    rw [hmk2]
    rfl
  have hfind := find_descsOf es 0 i hies (hmapeq ▸ hnames)
  have hname : (es.getD i noEntry).name = (c.getD i noDescr).1 := by rw [hmk]; rfl
  rw [← hname]
  simp only [tensorGet, hfind]
  rw [show (4 * (es.getD i noEntry).len = (es.getD i noEntry).bytes.length) from
      (entries_bytes_len c m es h i hies).symm, Nat.zero_add, payload_slice es i hies,
    hmk]
  rfl

/-- Witness for C9 (amended) at the worked example: both cataloged tensors come
back byte-identical through the reader. -/
theorem C9_roundtrip_unique_names_witness :
    buildEntries sampleCatalog sampleModels = .ok sampleEntries ∧
    (openBlob (blobBytes sampleEntries)
        = some ⟨VERSION, descsOf sampleEntries 0, payloadBytes sampleEntries⟩ ∧
    ∀ i, i < sampleCatalog.length →
      ∃ t, sampleModels (sampleCatalog.getD i noDescr).2.2 (sampleCatalog.getD i noDescr).1
          = some t ∧
        tensorGet ⟨VERSION, descsOf sampleEntries 0, payloadBytes sampleEntries⟩
            (sampleCatalog.getD i noDescr).1
          = some (infer_shape t, float32_bytes t)) :=
  ⟨by decide,
    C9_roundtrip_unique_names sampleCatalog sampleModels sampleEntries
      (by decide) (by decide) (by decide) (by decide) (by decide)⟩

/-- Counterexample to claim C9 as stated: the catalog contract allows one name
in two different stages, and `dupCatalog` exercises that.  The write succeeds,
but the reader's name lookup returns the stage1 payload `[5,0,0,0]` for the
name `a`, while the adapter produced `[7,0,0,0]` for the stage2 catalog entry
`("a", [1], "stage2")` — so retrieving "each cataloged tensor by name" is not
byte-identical to the adapter's output for that entry. -/
theorem C9_duplicate_name_counterexample :
    buildEntries dupCatalog dupModels = .ok dupEntries ∧
    openBlob (blobBytes dupEntries) = some dupHandle ∧
    dupModels (dupCatalog.getD 1 noDescr).2.2 (dupCatalog.getD 1 noDescr).1
      = some ⟨[1], [7]⟩ ∧
    tensorGet dupHandle (dupCatalog.getD 1 noDescr).1
      = some ([1], float32_bytes ⟨[1], [5]⟩) ∧
    float32_bytes ⟨[1], [5]⟩ ≠ float32_bytes ⟨[1], [7]⟩ := by
  refine ⟨by decide, by decide, by decide, by decide, by decide⟩

end DTLN
